import Mathlib

/-
  Verification of the piper channel library (bdreece/piper).

  The development shallowly embeds the buffer layer
  (src/inc/piper/internal/buffer.hpp), the endpoint lifecycle layer and the
  MPSC/SPMC topology wrappers (src/inc/piper/mpsc.hpp, src/inc/piper/spmc.hpp).
  Blocking operations are embedded as state functions returning Option: a
  "none" result means the condition-variable wait predicate of the operation
  does not hold in the given state, so the calling thread blocks and the
  state is unchanged; "some" is the state reached when the operation
  completes.  Exceptions are embedded as explicit error values carrying the
  exact message string thrown in the source.
-/

namespace Piper

namespace Internal

/-- State of piper::internal::AsyncBuffer<T> (buffer.hpp): an unbounded FIFO
deque.  The mutex and the condition variable are synchronization devices
only; the logical state is the deque contents. -/
structure AsyncBuffer (α : Type) where
  queue : List α
deriving DecidableEq

/-- AsyncBuffer<T>::push (buffer.hpp lines 214-236): appends the item at the
back of the deque; never blocks.  The copy overload push(const T&) and the
move overload push(T&&) insert the same value. -/
def AsyncBuffer.push (b : AsyncBuffer α) (item : α) : AsyncBuffer α :=
  ⟨b.queue ++ [item]⟩

/-- AsyncBuffer<T>::pop (buffer.hpp lines 238-252): waits until the deque is
non-empty (wait predicate "not queue.empty()"), then removes and returns the
front element.  "none" is the blocked case. -/
def AsyncBuffer.pop : AsyncBuffer α → Option (α × AsyncBuffer α)
  | ⟨[]⟩ => none
  | ⟨x :: rest⟩ => some (x, ⟨rest⟩)

/-- State of piper::internal::SyncBuffer<T> (buffer.hpp): the capacity n
given to the constructor and the FIFO deque. -/
structure SyncBuffer (α : Type) where
  n : Nat
  queue : List α
deriving DecidableEq

/-- SyncBuffer<T>::push (buffer.hpp lines 254-284): waits until
queue.size() < n (condition available[1]), then appends the item at the
back.  "none" is the blocked (full) case. -/
def SyncBuffer.push (b : SyncBuffer α) (item : α) : Option (SyncBuffer α) :=
  if b.queue.length < b.n then some ⟨b.n, b.queue ++ [item]⟩ else none

/-- SyncBuffer<T>::pop (buffer.hpp lines 286-304): waits until the deque is
non-empty (condition available[0]), then removes and returns the front
element. -/
def SyncBuffer.pop : SyncBuffer α → Option (α × SyncBuffer α)
  | ⟨_, []⟩ => none
  | ⟨n, x :: rest⟩ => some (x, ⟨n, rest⟩)

/-- State of piper::internal::RendezvousBuffer<T> (buffer.hpp): the optional
cell std::optional<T> item, initially empty. -/
structure RendezvousBuffer (α : Type) where
  item : Option α
deriving DecidableEq

/-- First phase of RendezvousBuffer<T>::push (buffer.hpp lines 306-328):
waits until the cell is empty (condition available[1]) and stores the item.
After this the producer still waits on available[2] until the cell has been
emptied by a pop; that second phase is modelled by the rendezvous machine
below (Rendezvous.Step), not by this state function. -/
def RendezvousBuffer.pushFill : RendezvousBuffer α → α → Option (RendezvousBuffer α)
  | ⟨none⟩, v => some ⟨some v⟩
  | ⟨some _⟩, _ => none

/-- RendezvousBuffer<T>::pop (buffer.hpp lines 354-374): waits until the cell
is filled (condition available[0]), moves the value out and resets the cell. -/
def RendezvousBuffer.pop : RendezvousBuffer α → Option (α × RendezvousBuffer α)
  | ⟨none⟩ => none
  | ⟨some v⟩ => some (v, ⟨none⟩)

/-- A buffer operation, as issued by the endpoints: push carries the sent
value, pop collects one received value.  Because every buffer method runs
under the single buffer mutex, a concurrent history of completed operations
is a sequence of these. -/
inductive BufOp (α : Type) where
  | push (v : α)
  | pop
deriving DecidableEq

/-- The values pushed by a sequence of operations, in order. -/
def pushedOf : List (BufOp α) → List α
  | [] => []
  | BufOp.push v :: ops => v :: pushedOf ops
  | BufOp.pop :: ops => pushedOf ops

/-- Runs a sequence of operations against an AsyncBuffer.  Returns the final
buffer and the popped values in order, or "none" when some operation can
never complete from its state (its wait predicate fails). -/
def AsyncBuffer.run : AsyncBuffer α → List (BufOp α) → Option (AsyncBuffer α × List α)
  | b, [] => some (b, [])
  | b, BufOp.push v :: ops => AsyncBuffer.run (b.push v) ops
  | b, BufOp.pop :: ops =>
      match b.pop with
      | none => none
      | some (x, b2) =>
          match AsyncBuffer.run b2 ops with
          | none => none
          | some (b3, outs) => some (b3, x :: outs)

/-- Runs a sequence of operations against a SyncBuffer. -/
def SyncBuffer.run : SyncBuffer α → List (BufOp α) → Option (SyncBuffer α × List α)
  | b, [] => some (b, [])
  | b, BufOp.push v :: ops =>
      match b.push v with
      | none => none
      | some b2 => SyncBuffer.run b2 ops
  | b, BufOp.pop :: ops =>
      match b.pop with
      | none => none
      | some (x, b2) =>
          match SyncBuffer.run b2 ops with
          | none => none
          | some (b3, outs) => some (b3, x :: outs)

theorem AsyncBuffer.run_async_spec {α} :
    ∀ (ops : List (BufOp α)) (b b2 : AsyncBuffer α) (outs : List α),
      AsyncBuffer.run b ops = some (b2, outs) →
      b.queue ++ pushedOf ops = outs ++ b2.queue := by
  intro ops
  induction ops with
  | nil =>
      intro b b2 outs h
      simp [AsyncBuffer.run] at h
      obtain ⟨rfl, rfl⟩ := h
      simp [pushedOf]
  | cons op ops ih =>
      intro b b2 outs h
      cases op with
      | push v =>
          have h2 := ih (b.push v) b2 outs (by simpa [AsyncBuffer.run] using h)
          simp only [AsyncBuffer.push] at h2
          simp only [pushedOf, List.append_assoc] at h2 ⊢
          simpa using h2
      | pop =>
          obtain ⟨q⟩ := b
          cases q with
          | nil => simp [AsyncBuffer.run, AsyncBuffer.pop] at h
          | cons x rest =>
              simp only [AsyncBuffer.run, AsyncBuffer.pop] at h
              cases hr : AsyncBuffer.run ⟨rest⟩ ops with
              | none => rw [hr] at h; simp at h
              | some p =>
                  obtain ⟨b3, outs2⟩ := p
                  rw [hr] at h
                  simp at h
                  obtain ⟨rfl, rfl⟩ := h
                  have h3 := ih _ _ _ hr
                  simp only [pushedOf] at h3 ⊢
                  simpa using h3

theorem SyncBuffer.run_sync_spec {α} :
    ∀ (ops : List (BufOp α)) (b b2 : SyncBuffer α) (outs : List α),
      SyncBuffer.run b ops = some (b2, outs) →
      b2.n = b.n ∧ b.queue ++ pushedOf ops = outs ++ b2.queue := by
  intro ops
  induction ops with
  | nil =>
      intro b b2 outs h
      simp [SyncBuffer.run] at h
      obtain ⟨rfl, rfl⟩ := h
      simp [pushedOf]
  | cons op ops ih =>
      intro b b2 outs h
      cases op with
      | push v =>
          simp only [SyncBuffer.run, SyncBuffer.push] at h
          by_cases hlen : b.queue.length < b.n
          · rw [if_pos hlen] at h
            simp at h
            have h2 := ih ⟨b.n, b.queue ++ [v]⟩ b2 outs h
            simp only [pushedOf] at h2 ⊢
            obtain ⟨hn, happ⟩ := h2
            refine ⟨hn, ?_⟩
            simpa [List.append_assoc] using happ
          · rw [if_neg hlen] at h
            simp at h
      | pop =>
          obtain ⟨n, q⟩ := b
          cases q with
          | nil => simp [SyncBuffer.run, SyncBuffer.pop] at h
          | cons x rest =>
              simp only [SyncBuffer.run, SyncBuffer.pop] at h
              cases hr : SyncBuffer.run ⟨n, rest⟩ ops with
              | none => rw [hr] at h; simp at h
              | some p =>
                  obtain ⟨b3, outs2⟩ := p
                  rw [hr] at h
                  simp at h
                  obtain ⟨rfl, rfl⟩ := h
                  have h3 := ih _ _ _ hr
                  simp only [pushedOf] at h3 ⊢
                  obtain ⟨hn, happ⟩ := h3
                  exact ⟨hn, by simpa using happ⟩

theorem SyncBuffer.run_le {α} :
    ∀ (ops : List (BufOp α)) (b b2 : SyncBuffer α) (outs : List α),
      SyncBuffer.run b ops = some (b2, outs) →
      b.queue.length ≤ b.n →
      b2.queue.length ≤ b2.n := by
  intro ops
  induction ops with
  | nil =>
      intro b b2 outs h hle
      simp [SyncBuffer.run] at h
      obtain ⟨rfl, rfl⟩ := h
      exact hle
  | cons op ops ih =>
      intro b b2 outs h hle
      cases op with
      | push v =>
          simp only [SyncBuffer.run, SyncBuffer.push] at h
          by_cases hlen : b.queue.length < b.n
          · rw [if_pos hlen] at h
            simp at h
            exact ih ⟨b.n, b.queue ++ [v]⟩ b2 outs h (by simpa using hlen)
          · rw [if_neg hlen] at h
            simp at h
      | pop =>
          obtain ⟨n, q⟩ := b
          cases q with
          | nil => simp [SyncBuffer.run, SyncBuffer.pop] at h
          | cons x rest =>
              simp only [SyncBuffer.run, SyncBuffer.pop] at h
              cases hr : SyncBuffer.run ⟨n, rest⟩ ops with
              | none => rw [hr] at h; simp at h
              | some p =>
                  obtain ⟨b3, outs2⟩ := p
                  rw [hr] at h
                  simp at h
                  obtain ⟨rfl, rfl⟩ := h
                  refine ih _ _ _ hr ?_
                  simp at hle ⊢
                  omega

/-- The dynamic type behind a std::shared_ptr<piper::internal::Buffer<T>>:
one of the three concrete derivations of the abstract base class Buffer<T>.
Operations dispatch on the concrete variant, as virtual calls do. -/
inductive Buffer (α : Type) where
  | async (b : AsyncBuffer α)
  | sync (b : SyncBuffer α)
  | rendezvous (b : RendezvousBuffer α)
deriving DecidableEq

/-- Virtual dispatch of Buffer<T>::push.  For the rendezvous variant this is
the fill phase of the two-phase push protocol (see RendezvousBuffer.pushFill);
push has not returned yet at that point, which is the subject of the
rendezvous machine below. -/
def Buffer.push : Buffer α → α → Option (Buffer α)
  | .async b, v => some (.async (b.push v))
  | .sync b, v => (b.push v).map .sync
  | .rendezvous b, v => (b.pushFill v).map .rendezvous

/-- Virtual dispatch of Buffer<T>::pop. -/
def Buffer.pop : Buffer α → Option (α × Buffer α)
  | .async b => (b.pop).map fun p => (p.1, .async p.2)
  | .sync b => (b.pop).map fun p => (p.1, .sync p.2)
  | .rendezvous b => (b.pop).map fun p => (p.1, .rendezvous p.2)

end Internal

namespace Mpsc

open Internal

/-- The buffer built by mpsc::Receiver::Receiver() (mpsc.hpp lines 203-206):
a fresh AsyncBuffer. -/
def receiverNew (α : Type) : Buffer α := .async ⟨[]⟩

/-- The buffer built by mpsc::Receiver::Receiver(std::size_t n) (mpsc.hpp
lines 208-215): a SyncBuffer of capacity n when n > 0, else a
RendezvousBuffer. -/
def receiverNewSized (α : Type) (n : Nat) : Buffer α :=
  if n > 0 then .sync ⟨n, []⟩ else .rendezvous ⟨none⟩

/-- State of one MPSC channel together with its endpoint lifecycle:
receiverAlive records whether the Receiver (the strong owner of the buffer,
a std::shared_ptr) still exists; senders counts the extant Sender handles
(std::weak_ptr observers); buffer is the shared buffer.  For a weak_ptr,
buffer.expired() is !receiverAlive. -/
structure Chan (α : Type) where
  receiverAlive : Bool
  senders : Nat
  buffer : Buffer α
deriving DecidableEq

/-- The operations that touch an MPSC channel state. -/
inductive Op (α : Type) where
  | send (v : α)
  | recv
  | copySender
  | dropSender
  | dropReceiver
deriving DecidableEq

/-- One completed operation on an MPSC channel: the next state and the
message of the exception raised, if any.

send (mpsc.hpp lines 219-229): if the weak handle is expired, throw
std::runtime_error("receiver is expired") without touching the buffer;
otherwise promote and push.  recv (mpsc.hpp line 217): pop through the
strong handle, no failure path.  dropReceiver: the Receiver is destroyed,
so the buffer loses its strong owner.  A blocked push/pop leaves the state
unchanged and raises nothing. -/
def step (ch : Chan α) : Op α → Chan α × Option String
  | .send v =>
      if ch.receiverAlive = false then (ch, some "receiver is expired")
      else
        match ch.buffer.push v with
        | some b => ({ ch with buffer := b }, none)
        | none => (ch, none)
  | .recv =>
      match ch.buffer.pop with
      | some p => ({ ch with buffer := p.2 }, none)
      | none => (ch, none)
  | .copySender => ({ ch with senders := ch.senders + 1 }, none)
  | .dropSender => ({ ch with senders := ch.senders - 1 }, none)
  | .dropReceiver => ({ ch with receiverAlive := false }, none)

/-- Iterated steps, keeping only the state. -/
def run (ch : Chan α) : List (Op α) → Chan α
  | [] => ch
  | op :: ops => run (step ch op).1 ops

/-- No operation resurrects the strong owner: once the Receiver is gone,
it stays gone. -/
theorem run_receiverAlive_false {α} :
    ∀ (ops : List (Op α)) (ch : Chan α),
      ch.receiverAlive = false → (run ch ops).receiverAlive = false := by
  intro ops
  induction ops with
  | nil => intro ch h; simpa [run] using h
  | cons op ops ih =>
      intro ch h
      cases op with
      | send v =>
          simp only [run, step, h]
          exact ih _ h
      | recv =>
          simp only [run, step]
          cases hp : ch.buffer.pop with
          | none => exact ih _ h
          | some p => exact ih _ (by simpa using h)
      | copySender => exact ih _ (by simpa [run, step] using h)
      | dropSender => exact ih _ (by simpa [run, step] using h)
      | dropReceiver => exact ih _ (by simp [run, step])

end Mpsc

namespace Spmc

open Internal

/-- The buffer built by spmc::Sender::Sender() (spmc.hpp lines 210-213):
a fresh AsyncBuffer. -/
def senderNew (α : Type) : Buffer α := .async ⟨[]⟩

/-- The buffer built by spmc::Sender::Sender(std::size_t n) (spmc.hpp lines
215-222): a SyncBuffer of capacity n when n > 0, else a RendezvousBuffer. -/
def senderNewSized (α : Type) (n : Nat) : Buffer α :=
  if n > 0 then .sync ⟨n, []⟩ else .rendezvous ⟨none⟩

/-- State of one SPMC channel with its endpoint lifecycle: senderAlive
records whether the Sender (the strong owner) still exists; receivers
counts the extant Receiver observers. -/
structure Chan (α : Type) where
  senderAlive : Bool
  receivers : Nat
  buffer : Buffer α
deriving DecidableEq

/-- The operations that touch an SPMC channel state. -/
inductive Op (α : Type) where
  | send (v : α)
  | recv
  | copyReceiver
  | dropReceiver
  | dropSender
deriving DecidableEq

/-- One completed operation on an SPMC channel.

recv (spmc.hpp lines 204-208): if the weak handle is expired, throw
std::runtime_error("sender is expired") without touching the buffer;
otherwise promote and pop.  send (spmc.hpp lines 224-230): push through the
strong handle, no failure path. -/
def step (ch : Chan α) : Op α → Chan α × Option String
  | .recv =>
      if ch.senderAlive = false then (ch, some "sender is expired")
      else
        match ch.buffer.pop with
        | some p => ({ ch with buffer := p.2 }, none)
        | none => (ch, none)
  | .send v =>
      match ch.buffer.push v with
      | some b => ({ ch with buffer := b }, none)
      | none => (ch, none)
  | .copyReceiver => ({ ch with receivers := ch.receivers + 1 }, none)
  | .dropReceiver => ({ ch with receivers := ch.receivers - 1 }, none)
  | .dropSender => ({ ch with senderAlive := false }, none)

/-- Iterated steps, keeping only the state. -/
def run (ch : Chan α) : List (Op α) → Chan α
  | [] => ch
  | op :: ops => run (step ch op).1 ops

/-- No operation resurrects the strong owner: once the Sender is gone,
it stays gone. -/
theorem run_senderAlive_false {α} :
    ∀ (ops : List (Op α)) (ch : Chan α),
      ch.senderAlive = false → (run ch ops).senderAlive = false := by
  intro ops
  induction ops with
  | nil => intro ch h; simpa [run] using h
  | cons op ops ih =>
      intro ch h
      cases op with
      | recv =>
          simp only [run, step, h]
          exact ih _ h
      | send v =>
          simp only [run, step]
          cases hp : ch.buffer.push v with
          | none => exact ih _ h
          | some b => exact ih _ (by simpa using h)
      | copyReceiver => exact ih _ (by simpa [run, step] using h)
      | dropReceiver => exact ih _ (by simpa [run, step] using h)
      | dropSender => exact ih _ (by simp [run, step])

end Spmc

namespace Rendezvous

open Internal

/-- Where a producer executing RendezvousBuffer<T>::push (buffer.hpp lines
306-352) stands: "ready v" - before the first critical section, about to
wait on available[1] for an empty cell; "waitingDrain" - it has stored its
value and now waits on available[2] for the cell to be empty again;
"done" - push has returned. -/
inductive ProducerPhase (α : Type) where
  | ready (v : α)
  | waitingDrain
  | done
deriving DecidableEq

/-- Joint state of the rendezvous cell and the producer running push. -/
structure MState (α : Type) where
  cell : RendezvousBuffer α
  producer : ProducerPhase α
deriving DecidableEq

/-- The observable events of one push/pop pair on a RendezvousBuffer. -/
inductive Event (α : Type) where
  | fill (v : α)
  | take (v : α)
  | finish
deriving DecidableEq

/-- Atomic steps of the rendezvous protocol, each one mutex-protected
critical section of buffer.hpp:
fill - push passes the available[1] wait (cell empty) and stores its item
(lines 308-316); take - pop passes the available[0] wait (cell filled),
moves the value out and resets the cell (lines 356-366); finish - push
passes the available[2] wait (cell empty again) and returns (lines
321-327). -/
inductive Step : MState α → Event α → MState α → Prop where
  | fill (v : α) :
      Step ⟨⟨none⟩, .ready v⟩ (.fill v) ⟨⟨some v⟩, .waitingDrain⟩
  | take (v : α) (p : ProducerPhase α) :
      Step ⟨⟨some v⟩, p⟩ (.take v) ⟨⟨none⟩, p⟩
  | finish :
      Step ⟨⟨none⟩, .waitingDrain⟩ .finish ⟨⟨none⟩, .done⟩

/-- A finite execution, recording its events in order. -/
inductive Trace : MState α → List (Event α) → MState α → Prop where
  | nil : Trace s [] s
  | cons {s s2 s3 : MState α} {e : Event α} {es : List (Event α)} :
      Step s e s2 → Trace s2 es s3 → Trace s (e :: es) s3

theorem step_from_ready {α} {v : α} {e : Event α} {s2 : MState α}
    (h : Step ⟨⟨none⟩, .ready v⟩ e s2) :
    e = .fill v ∧ s2 = ⟨⟨some v⟩, .waitingDrain⟩ := by
  cases h
  exact ⟨rfl, rfl⟩

theorem step_from_filled {α} {v : α} {e : Event α} {s2 : MState α}
    (h : Step ⟨⟨some v⟩, .waitingDrain⟩ e s2) :
    e = .take v ∧ s2 = ⟨⟨none⟩, .waitingDrain⟩ := by
  cases h
  exact ⟨rfl, rfl⟩

theorem step_from_drained {α} {e : Event α} {s2 : MState α}
    (h : Step (⟨⟨none⟩, .waitingDrain⟩ : MState α) e s2) :
    e = .finish ∧ s2 = ⟨⟨none⟩, .done⟩ := by
  cases h
  exact ⟨rfl, rfl⟩

theorem step_from_done {α} {e : Event α} {s2 : MState α}
    (h : Step (⟨⟨none⟩, .done⟩ : MState α) e s2) : False := by
  cases h

end Rendezvous

namespace Cxx

/-- How a special member function is declared in a class definition. -/
inductive SpecialMember where
  | notDeclared
  | defaulted
  | deleted
deriving DecidableEq

/-- The copy- and move-constructor declarations of a class. -/
structure CopyMoveDecls where
  copyCtor : SpecialMember
  moveCtor : SpecialMember
deriving DecidableEq

/-- Whether an object of the class can be copy-constructed from an lvalue of
the same class, per C++17 [class.copy.ctor]: a copy constructor declared
"= default" is usable (all members of the endpoint classes here -
std::shared_ptr, std::weak_ptr - are themselves copyable); one declared
"= delete" is not; and when no copy constructor is declared, the implicitly
declared one is defined as deleted exactly when the class declares a move
constructor (none of the classes here declares a move assignment). -/
def copyConstructible (d : CopyMoveDecls) : Bool :=
  match d.copyCtor with
  | .defaulted => true
  | .deleted => false
  | .notDeclared => d.moveCtor == .notDeclared

/-- mpsc::Sender (mpsc.hpp lines 103-146): declares Sender(const Receiver&),
Sender(const Channel&), Sender(Sender&&) = default and Sender() = delete;
no copy constructor Sender(const Sender&) is declared anywhere in the
class. -/
def mpscSender : CopyMoveDecls := ⟨.notDeclared, .defaulted⟩

/-- mpsc::Receiver (mpsc.hpp lines 54-95): Receiver(const Receiver&) =
delete, Receiver(Receiver&&) = default. -/
def mpscReceiver : CopyMoveDecls := ⟨.deleted, .defaulted⟩

/-- spmc::Receiver (spmc.hpp lines 56-94): Receiver(const Receiver&) =
default, Receiver(Receiver&&) = default. -/
def spmcReceiver : CopyMoveDecls := ⟨.defaulted, .defaulted⟩

/-- spmc::Sender (spmc.hpp lines 102-147): Sender(const Sender&) = delete,
Sender(Sender&&) = default. -/
def spmcSender : CopyMoveDecls := ⟨.deleted, .defaulted⟩

end Cxx

namespace Variants

/-- A queue entry tagged with how it entered the deque: by the element
type's copy constructor (std::deque::push_back(const T&)) or by its move
constructor (std::deque::push_back(T&&) via std::forward). -/
inductive Entry (α : Type) where
  | copied (v : α)
  | moved (v : α)
deriving DecidableEq

/-- SyncBuffer<T>::push(const T&) - identical in both variant files
(src/unnamed/part_003 lines 228-243 and src/inc/piper/internal/buffer.hpp
lines 254-268): wait until queue.size() < n, then copy the item into the
deque. -/
def syncPushCopy (n : Nat) (q : List (Entry α)) (v : α) : Option (List (Entry α)) :=
  if q.length < n then some (q ++ [.copied v]) else none

/-- SyncBuffer<T>::push(T&&) in the earlier variant (src/unnamed/part_003
line 247): the body is "push(item);" - inside the function the named rvalue
reference parameter is an lvalue, so the call resolves to the copy overload
push(const T&); the item is copied, not moved, into the deque. -/
def syncPushMoveP3 (n : Nat) (q : List (Entry α)) (v : α) : Option (List (Entry α)) :=
  syncPushCopy n q v

/-- SyncBuffer<T>::push(T&&) in the primary header
(src/inc/piper/internal/buffer.hpp lines 270-284): its own body, which does
queue.push_back(std::forward<T>(item)) - the item is moved into the deque;
no delegation to the copy overload. -/
def syncPushMoveHpp (n : Nat) (q : List (Entry α)) (v : α) : Option (List (Entry α)) :=
  if q.length < n then some (q ++ [.moved v]) else none

end Variants

/-- Claim C1: destroying the strong endpoint (MPSC Receiver, SPMC Sender)
makes the weak handles expired; from then on every MPSC Sender::send raises
std::runtime_error("receiver is expired") leaving the whole channel state -
in particular the buffer - unchanged, and symmetrically every SPMC
Receiver::recv raises "sender is expired"; and this is permanent: after any
further sequence of operations the failure recurs identically. -/
theorem expiration_is_permanent {α : Type} :
    (∀ ch : Mpsc.Chan α, ((Mpsc.step ch .dropReceiver).1).receiverAlive = false)
    ∧ (∀ (ch : Mpsc.Chan α) (v : α), ch.receiverAlive = false →
        Mpsc.step ch (.send v) = (ch, some "receiver is expired"))
    ∧ (∀ (ch : Mpsc.Chan α) (ops : List (Mpsc.Op α)) (v : α),
        ch.receiverAlive = false →
        Mpsc.step (Mpsc.run ch ops) (.send v)
          = (Mpsc.run ch ops, some "receiver is expired"))
    ∧ (∀ ch : Spmc.Chan α, ((Spmc.step ch .dropSender).1).senderAlive = false)
    ∧ (∀ ch : Spmc.Chan α, ch.senderAlive = false →
        Spmc.step ch .recv = (ch, some "sender is expired"))
    ∧ (∀ (ch : Spmc.Chan α) (ops : List (Spmc.Op α)),
        ch.senderAlive = false →
        Spmc.step (Spmc.run ch ops) .recv
          = (Spmc.run ch ops, some "sender is expired")) := by
  refine ⟨?_, ?_, ?_, ?_, ?_, ?_⟩
  · intro ch; simp [Mpsc.step]
  · intro ch v h; simp [Mpsc.step, h]
  · intro ch ops v h
    have h2 := Mpsc.run_receiverAlive_false ops ch h
    simp [Mpsc.step, h2]
  · intro ch; simp [Spmc.step]
  · intro ch h; simp [Spmc.step, h]
  · intro ch ops h
    have h2 := Spmc.run_senderAlive_false ops ch h
    simp [Spmc.step, h2]

theorem expiration_is_permanent_witness :
    Mpsc.step (⟨false, 1, .async ⟨[]⟩⟩ : Mpsc.Chan Nat) (.send 5)
      = (⟨false, 1, .async ⟨[]⟩⟩, some "receiver is expired")
    ∧ Spmc.step (Spmc.run (⟨false, 2, .async ⟨[]⟩⟩ : Spmc.Chan Nat)
          [.recv, .copyReceiver]) .recv
      = (⟨false, 3, .async ⟨[]⟩⟩, some "sender is expired") :=
  ⟨expiration_is_permanent.2.1 ⟨false, 1, .async ⟨[]⟩⟩ 5 rfl,
   expiration_is_permanent.2.2.2.2.2 ⟨false, 2, .async ⟨[]⟩⟩
     [.recv, .copyReceiver] rfl⟩

/-- Claim C2: in the rendezvous protocol a producer that has filled the cell
cannot complete its push before the consumer has taken the value out and
reset the cell: every execution of the machine that starts with an empty
cell and a producer about to push v, and ends with the push returned, is
exactly fill v, then take v, then finish - the take strictly precedes the
completion of the push. -/
theorem rendezvous_push_returns_after_take {α : Type} :
    ∀ (v : α) (s : Rendezvous.MState α) (tr : List (Rendezvous.Event α)),
      Rendezvous.Trace ⟨⟨none⟩, .ready v⟩ tr s →
      s.producer = .done →
      tr = [.fill v, .take v, .finish] := by
  intro v s tr htr hdone
  cases htr with
  | nil => simp at hdone
  | cons hstep htr2 =>
      obtain ⟨rfl, rfl⟩ := Rendezvous.step_from_ready hstep
      cases htr2 with
      | nil => simp at hdone
      | cons hstep2 htr3 =>
          obtain ⟨rfl, rfl⟩ := Rendezvous.step_from_filled hstep2
          cases htr3 with
          | nil => simp at hdone
          | cons hstep3 htr4 =>
              obtain ⟨rfl, rfl⟩ := Rendezvous.step_from_drained hstep3
              cases htr4 with
              | nil => rfl
              | cons hstep4 _ => exact absurd hstep4 Rendezvous.step_from_done

theorem rendezvous_push_returns_after_take_witness :
    Rendezvous.Trace (⟨⟨none⟩, .ready 1⟩ : Rendezvous.MState Nat)
        [.fill 1, .take 1, .finish] ⟨⟨none⟩, .done⟩
    ∧ ([.fill 1, .take 1, .finish] : List (Rendezvous.Event Nat))
        = [.fill 1, .take 1, .finish] := by
  have htr : Rendezvous.Trace (⟨⟨none⟩, .ready 1⟩ : Rendezvous.MState Nat)
      [.fill 1, .take 1, .finish] ⟨⟨none⟩, .done⟩ :=
    .cons (.fill 1) (.cons (.take 1 _) (.cons .finish .nil))
  exact ⟨htr, rendezvous_push_returns_after_take 1 ⟨⟨none⟩, .done⟩ _ htr rfl⟩

/-- Claim C3: no loss, no duplication.  For a run from an empty unbounded or
bounded buffer in which every operation completed and as many values were
popped as were pushed, the multiset of popped values equals the multiset of
pushed values. -/
theorem no_loss_no_duplication {α : Type} :
    (∀ (ops : List (Internal.BufOp α)) (b2 : Internal.AsyncBuffer α) (outs : List α),
        Internal.AsyncBuffer.run ⟨[]⟩ ops = some (b2, outs) →
        outs.length = (Internal.pushedOf ops).length →
        (outs : Multiset α) = (Internal.pushedOf ops : Multiset α))
    ∧ (∀ (n : Nat) (ops : List (Internal.BufOp α)) (b2 : Internal.SyncBuffer α)
          (outs : List α),
        Internal.SyncBuffer.run ⟨n, []⟩ ops = some (b2, outs) →
        outs.length = (Internal.pushedOf ops).length →
        (outs : Multiset α) = (Internal.pushedOf ops : Multiset α)) := by
  constructor
  · intro ops b2 outs hrun hlen
    have hspec := Internal.AsyncBuffer.run_async_spec ops ⟨[]⟩ b2 outs hrun
    simp at hspec
    have hl := congrArg List.length hspec
    simp at hl
    have hq : b2.queue = [] := by
      rw [List.length_eq_zero.symm]
      omega
    rw [hspec, hq, List.append_nil]
  · intro n ops b2 outs hrun hlen
    have hspec := (Internal.SyncBuffer.run_sync_spec ops ⟨n, []⟩ b2 outs hrun).2
    simp at hspec
    have hl := congrArg List.length hspec
    simp at hl
    have hq : b2.queue = [] := by
      rw [List.length_eq_zero.symm]
      omega
    rw [hspec, hq, List.append_nil]

theorem no_loss_no_duplication_witness :
    (([1, 2] : List Nat) : Multiset Nat)
      = ((Internal.pushedOf
            [.push 1, .push 2, Internal.BufOp.pop, Internal.BufOp.pop])
          : Multiset Nat) :=
  no_loss_no_duplication.1 [.push 1, .push 2, .pop, .pop] ⟨[]⟩ [1, 2] rfl rfl

/-- Claim C4: single-producer FIFO.  Both the unbounded and the bounded
buffer are FIFO queues - push appends at the back, pop removes and returns
the front element - and therefore in any completed run from an empty buffer
the popped values are exactly the first pops of the pushed values, in push
order.  Since mpsc::Receiver::recv is exactly pop through the strong
handle, an MPSC receiver sees a single producer's values in send order. -/
theorem mpsc_single_producer_fifo {α : Type} :
    (∀ (ops : List (Internal.BufOp α)) (b2 : Internal.AsyncBuffer α) (outs : List α),
        Internal.AsyncBuffer.run ⟨[]⟩ ops = some (b2, outs) →
        outs = (Internal.pushedOf ops).take outs.length)
    ∧ (∀ (b : Internal.AsyncBuffer α) (v : α),
        (Internal.AsyncBuffer.push b v).queue = b.queue ++ [v])
    ∧ (∀ (b b2 : Internal.AsyncBuffer α) (x : α),
        Internal.AsyncBuffer.pop b = some (x, b2) → b.queue = x :: b2.queue)
    ∧ (∀ (n : Nat) (ops : List (Internal.BufOp α)) (b2 : Internal.SyncBuffer α)
          (outs : List α),
        Internal.SyncBuffer.run ⟨n, []⟩ ops = some (b2, outs) →
        outs = (Internal.pushedOf ops).take outs.length)
    ∧ (∀ (b b2 : Internal.SyncBuffer α) (v : α),
        Internal.SyncBuffer.push b v = some b2 → b2.queue = b.queue ++ [v])
    ∧ (∀ (b b2 : Internal.SyncBuffer α) (x : α),
        Internal.SyncBuffer.pop b = some (x, b2) → b.queue = x :: b2.queue) := by
  refine ⟨?_, ?_, ?_, ?_, ?_, ?_⟩
  · intro ops b2 outs hrun
    have hspec := Internal.AsyncBuffer.run_async_spec ops ⟨[]⟩ b2 outs hrun
    simp at hspec
    rw [hspec, List.take_left]
  · intro b v; rfl
  · intro b b2 x h
    obtain ⟨q⟩ := b
    cases q with
    | nil => simp [Internal.AsyncBuffer.pop] at h
    | cons y rest =>
        simp [Internal.AsyncBuffer.pop] at h
        obtain ⟨rfl, rfl⟩ := h
        rfl
  · intro n ops b2 outs hrun
    have hspec := (Internal.SyncBuffer.run_sync_spec ops ⟨n, []⟩ b2 outs hrun).2
    simp at hspec
    rw [hspec, List.take_left]
  · intro b b2 v h
    simp only [Internal.SyncBuffer.push] at h
    by_cases hlen : b.queue.length < b.n
    · rw [if_pos hlen] at h
      simp at h
      rw [← h]
    · rw [if_neg hlen] at h
      simp at h
  · intro b b2 x h
    obtain ⟨n, q⟩ := b
    cases q with
    | nil => simp [Internal.SyncBuffer.pop] at h
    | cons y rest =>
        simp [Internal.SyncBuffer.pop] at h
        obtain ⟨rfl, rfl⟩ := h
        rfl

theorem mpsc_single_producer_fifo_witness :
    ([1] : List Nat)
      = (Internal.pushedOf
          [.push 1, Internal.BufOp.pop, .push 2]).take ([1] : List Nat).length
    ∧ ([5, 6] : List Nat) = 5 :: [6] :=
  ⟨mpsc_single_producer_fifo.1 [.push 1, .pop, .push 2] ⟨[2]⟩ [1] rfl,
   mpsc_single_producer_fifo.2.2.1 ⟨[5, 6]⟩ ⟨[6]⟩ 5 rfl⟩

/-- Claim C5: bounded back-pressure.  The bounded buffer's push appends only
after its wait predicate queue.size() < n holds, so a single push leaves at
most n elements, pop shrinks the queue, and consequently any completed run
from a state respecting the capacity ends in a state respecting it: the
buffer never holds more than n values. -/
theorem bounded_backpressure {α : Type} :
    (∀ (b b2 : Internal.SyncBuffer α) (v : α),
        Internal.SyncBuffer.push b v = some b2 →
        b2.n = b.n ∧ b2.queue.length ≤ b.n)
    ∧ (∀ (b b2 : Internal.SyncBuffer α) (x : α),
        Internal.SyncBuffer.pop b = some (x, b2) →
        b2.n = b.n ∧ b2.queue.length < b.queue.length)
    ∧ (∀ (ops : List (Internal.BufOp α)) (b b2 : Internal.SyncBuffer α)
          (outs : List α),
        b.queue.length ≤ b.n →
        Internal.SyncBuffer.run b ops = some (b2, outs) →
        b2.n = b.n ∧ b2.queue.length ≤ b2.n) := by
  refine ⟨?_, ?_, ?_⟩
  · intro b b2 v h
    simp only [Internal.SyncBuffer.push] at h
    by_cases hlen : b.queue.length < b.n
    · rw [if_pos hlen] at h
      simp at h
      rw [← h]
      constructor
      · rfl
      · simp
        omega
    · rw [if_neg hlen] at h
      simp at h
  · intro b b2 x h
    obtain ⟨n, q⟩ := b
    cases q with
    | nil => simp [Internal.SyncBuffer.pop] at h
    | cons y rest =>
        simp [Internal.SyncBuffer.pop] at h
        obtain ⟨rfl, rfl⟩ := h
        simp
  · intro ops b b2 outs hle hrun
    exact ⟨(Internal.SyncBuffer.run_sync_spec ops b b2 outs hrun).1,
           Internal.SyncBuffer.run_le ops b b2 outs hrun hle⟩

theorem bounded_backpressure_witness :
    (⟨2, [2]⟩ : Internal.SyncBuffer Nat).n = (⟨2, []⟩ : Internal.SyncBuffer Nat).n
    ∧ (⟨2, [2]⟩ : Internal.SyncBuffer Nat).queue.length
        ≤ (⟨2, [2]⟩ : Internal.SyncBuffer Nat).n :=
  bounded_backpressure.2.2 [.push 1, .push 2, .pop] ⟨2, []⟩ ⟨2, [2]⟩ [1]
    (by decide) rfl

/-- Claim C6: the sized constructors of the non-copyable endpoints
(mpsc::Receiver(n), spmc::Sender(n)) build a bounded buffer of capacity
exactly n when n > 0 and a rendezvous buffer when n == 0, and the
parameterless constructors build an unbounded buffer. -/
theorem flavor_constructor_dispatch {α : Type} :
    (∀ n : Nat, 0 < n →
        Mpsc.receiverNewSized α n = Internal.Buffer.sync ⟨n, []⟩)
    ∧ Mpsc.receiverNewSized α 0 = Internal.Buffer.rendezvous ⟨none⟩
    ∧ Mpsc.receiverNew α = Internal.Buffer.async ⟨[]⟩
    ∧ (∀ n : Nat, 0 < n →
        Spmc.senderNewSized α n = Internal.Buffer.sync ⟨n, []⟩)
    ∧ Spmc.senderNewSized α 0 = Internal.Buffer.rendezvous ⟨none⟩
    ∧ Spmc.senderNew α = Internal.Buffer.async ⟨[]⟩ := by
  refine ⟨?_, rfl, rfl, ?_, rfl, rfl⟩
  · intro n hn; simp [Mpsc.receiverNewSized, hn]
  · intro n hn; simp [Spmc.senderNewSized, hn]

theorem flavor_constructor_dispatch_witness :
    Mpsc.receiverNewSized Nat 4 = Internal.Buffer.sync ⟨4, []⟩
    ∧ Spmc.senderNewSized Nat 4 = Internal.Buffer.sync ⟨4, []⟩ :=
  ⟨flavor_constructor_dispatch.1 4 (by decide),
   flavor_constructor_dispatch.2.2.2.1 4 (by decide)⟩

/-- Claim C7: operations through the strong-owning endpoint never fail.
mpsc::Receiver::recv is pop through the strong handle and
spmc::Sender::send is push through the strong handle; neither has an error
path, whatever the state of the channel (in particular however many
observer endpoints exist and whatever the buffer holds): the raised-message
component of the step is always none, and on completion the step is exactly
the buffer operation. -/
theorem strong_endpoint_never_fails {α : Type} :
    (∀ ch : Mpsc.Chan α, (Mpsc.step ch .recv).2 = none)
    ∧ (∀ (ch : Mpsc.Chan α) (x : α) (b : Internal.Buffer α),
        ch.buffer.pop = some (x, b) →
        Mpsc.step ch .recv = ({ ch with buffer := b }, none))
    ∧ (∀ (ch : Spmc.Chan α) (v : α), (Spmc.step ch (.send v)).2 = none)
    ∧ (∀ (ch : Spmc.Chan α) (v : α) (b : Internal.Buffer α),
        ch.buffer.push v = some b →
        Spmc.step ch (.send v) = ({ ch with buffer := b }, none)) := by
  refine ⟨?_, ?_, ?_, ?_⟩
  · intro ch
    simp only [Mpsc.step]
    cases ch.buffer.pop <;> simp
  · intro ch x b h; simp [Mpsc.step, h]
  · intro ch v
    simp only [Spmc.step]
    cases ch.buffer.push v <;> simp
  · intro ch v b h; simp [Spmc.step, h]

theorem strong_endpoint_never_fails_witness :
    Mpsc.step (⟨true, 0, .async ⟨[4]⟩⟩ : Mpsc.Chan Nat) .recv
      = (⟨true, 0, .async ⟨[]⟩⟩, none)
    ∧ Spmc.step (⟨true, 1, .async ⟨[]⟩⟩ : Spmc.Chan Nat) (.send 9)
      = (⟨true, 1, .async ⟨[9]⟩⟩, none) :=
  ⟨strong_endpoint_never_fails.2.1 ⟨true, 0, .async ⟨[4]⟩⟩ 4 (.async ⟨[]⟩) rfl,
   strong_endpoint_never_fails.2.2.2 ⟨true, 1, .async ⟨[]⟩⟩ 9 (.async ⟨[9]⟩) rfl⟩

/-- Claim C8 evaluation: copy-constructibility of the four endpoint classes
per their declared special members and the C++17 implicit-declaration rules.
mpsc::Sender declares a defaulted move constructor and no copy constructor,
so its copy constructor is implicitly defined as deleted: an mpsc::Sender
can NOT be copy-constructed from another mpsc::Sender, although the README
documents that it can.  The other three endpoints match the claim:
mpsc::Receiver not copyable, spmc::Receiver copyable, spmc::Sender not
copyable. -/
theorem endpoint_copyability_eval :
    Cxx.copyConstructible Cxx.mpscSender = false
    ∧ Cxx.copyConstructible Cxx.mpscReceiver = false
    ∧ Cxx.copyConstructible Cxx.spmcReceiver = true
    ∧ Cxx.copyConstructible Cxx.spmcSender = false :=
  ⟨rfl, rfl, rfl, rfl⟩

/-- Claim C9 counterexample: in the primary header
(src/inc/piper/internal/buffer.hpp lines 270-284) the bounded buffer's move
overload push(T&&) does not delegate to the copy overload: at capacity 1,
empty queue and item 0 it move-inserts the item, which differs from what
the copy overload produces, refuting "the pushed value is copied, not
moved, into the queue" for that file. -/
theorem move_push_delegation_counterexample :
    Variants.syncPushMoveHpp 1 ([] : List (Variants.Entry Nat)) 0
        = some [Variants.Entry.moved 0]
    ∧ Variants.syncPushMoveHpp 1 ([] : List (Variants.Entry Nat)) 0
        ≠ Variants.syncPushCopy 1 ([] : List (Variants.Entry Nat)) 0 := by
  constructor
  · rfl
  · decide

/-- Claim C9 as amended: in the earlier bounded-buffer variant
(src/unnamed/part_003 line 247) the move overload push(T&&) delegates to
the copy overload push(const T&), so there the two overloads agree on every
input and the pushed value enters the queue by copy; in the primary header
(src/inc/piper/internal/buffer.hpp lines 270-284) the move overload instead
forwards the value directly into the queue - a move, not a copy - though
both overloads still append the same value at the back. -/
theorem move_push_delegation_variants {α : Type} :
    (∀ (n : Nat) (q : List (Variants.Entry α)) (v : α),
        Variants.syncPushMoveP3 n q v = Variants.syncPushCopy n q v)
    ∧ (∀ (n : Nat) (q : List (Variants.Entry α)) (v : α), q.length < n →
        Variants.syncPushMoveP3 n q v = some (q ++ [.copied v]))
    ∧ (∀ (n : Nat) (q : List (Variants.Entry α)) (v : α), q.length < n →
        Variants.syncPushMoveHpp n q v = some (q ++ [.moved v])) := by
  refine ⟨fun n q v => rfl, ?_, ?_⟩
  · intro n q v h
    simp [Variants.syncPushMoveP3, Variants.syncPushCopy, h]
  · intro n q v h
    simp [Variants.syncPushMoveHpp, h]

theorem move_push_delegation_variants_witness :
    Variants.syncPushMoveP3 1 ([] : List (Variants.Entry Nat)) 7
        = some [Variants.Entry.copied 7]
    ∧ Variants.syncPushMoveHpp 1 ([] : List (Variants.Entry Nat)) 7
        = some [Variants.Entry.moved 7] :=
  ⟨move_push_delegation_variants.2.1 1 [] 7 (by decide),
   move_push_delegation_variants.2.2 1 [] 7 (by decide)⟩

/-- Claim C10: the public sized constructors never build a bounded buffer of
capacity zero - whenever mpsc::Receiver(n) or spmc::Sender(n) produces a
SyncBuffer, its capacity is positive (the n == 0 case builds a
RendezvousBuffer instead), so the SyncBuffer constructor precondition n >= 1
holds and push from the initial state is not blocked by an always-false
wait predicate. -/
theorem public_sync_capacity_positive {α : Type} :
    (∀ (n : Nat) (sb : Internal.SyncBuffer α),
        Mpsc.receiverNewSized α n = Internal.Buffer.sync sb →
        0 < sb.n ∧ ∀ v : α, Internal.SyncBuffer.push sb v ≠ none)
    ∧ (∀ (n : Nat) (sb : Internal.SyncBuffer α),
        Spmc.senderNewSized α n = Internal.Buffer.sync sb →
        0 < sb.n ∧ ∀ v : α, Internal.SyncBuffer.push sb v ≠ none) := by
  constructor
  · intro n sb h
    simp only [Mpsc.receiverNewSized] at h
    by_cases hn : n > 0
    · rw [if_pos hn] at h
      simp at h
      subst h
      exact ⟨hn, fun v => by simp [Internal.SyncBuffer.push, hn]⟩
    · rw [if_neg hn] at h
      simp at h
  · intro n sb h
    simp only [Spmc.senderNewSized] at h
    by_cases hn : n > 0
    · rw [if_pos hn] at h
      simp at h
      subst h
      exact ⟨hn, fun v => by simp [Internal.SyncBuffer.push, hn]⟩
    · rw [if_neg hn] at h
      simp at h

theorem public_sync_capacity_positive_witness :
    (0 < (⟨3, []⟩ : Internal.SyncBuffer Nat).n
      ∧ ∀ v : Nat, Internal.SyncBuffer.push (⟨3, []⟩ : Internal.SyncBuffer Nat) v ≠ none)
    ∧ (0 < (⟨3, []⟩ : Internal.SyncBuffer Nat).n
      ∧ ∀ v : Nat, Internal.SyncBuffer.push (⟨3, []⟩ : Internal.SyncBuffer Nat) v ≠ none) :=
  ⟨public_sync_capacity_positive.1 3 ⟨3, []⟩ rfl,
   public_sync_capacity_positive.2 3 ⟨3, []⟩ rfl⟩

end Piper
